import Mathlib

set_option maxHeartbeats 1000000

/-!
Shallow embedding of `src/utils/docker.py` (hostlife).

Strings are modelled as `List Char`; Python text routines (`str.strip`,
`str.rstrip`, the two anchored regexes, `str.startswith`, `str.rsplit`)
become explicit list functions.  `None` arguments feeding `_strip_scheme`
are modelled as the empty list (Python treats both as falsy there), and
nullable database columns are `Option (List Char)`.  Whitespace is modelled
over the ASCII whitespace characters (codes 9-13 and 32); the counterexamples
below only ever use the plain space character.  The Docker SDK is an external
collaborator: availability is a `Bool`, the listing calls are `Except` values
(Python exceptions become `.error`), and `images.pull` is a function argument
returning `Except`, so a raised exception is an `.error` result.
-/

/-- Characters removed by Python `str.strip()` (ASCII fragment). -/
def isPySpace (c : Char) : Bool :=
  decide (c.toNat = 32 ∨ (9 ≤ c.toNat ∧ c.toNat ≤ 13))

/-- ASCII letters, the character class `[a-zA-Z]` of the scheme regex. -/
def isAsciiLetter (c : Char) : Bool :=
  decide ((65 ≤ c.toNat ∧ c.toNat ≤ 90) ∨ (97 ≤ c.toNat ∧ c.toNat ≤ 122))

/-- The character class `[a-z0-9]` of the cleanup regex, after lowercasing. -/
def isLowerAlnum (c : Char) : Bool :=
  decide ((97 ≤ c.toNat ∧ c.toNat ≤ 122) ∨ (48 ≤ c.toNat ∧ c.toNat ≤ 57))

/-- ASCII lowercasing, used to model `re.IGNORECASE` matching. -/
def lowerChar (c : Char) : Char :=
  if 65 ≤ c.toNat ∧ c.toNat ≤ 90 then Char.ofNat (c.toNat + 32) else c

/-- Python `str.startswith` on the list model. -/
def startsWithL : List Char → List Char → Bool
  | [], _ => true
  | _ :: _, [] => false
  | a :: p, b :: l => a == b && startsWithL p l

/-- Python `in` on strings: `p` occurs as a contiguous substring. -/
def isSubstring (p : List Char) : List Char → Bool
  | [] => startsWithL p []
  | a :: rest => startsWithL p (a :: rest) || isSubstring p rest

/-- Python `str.strip()`: drop whitespace from both ends. -/
def pyStrip (s : List Char) : List Char :=
  ((s.dropWhile isPySpace).reverse.dropWhile isPySpace).reverse

/-- Whether the anchored regex `^[a-zA-Z]+://` matches.  The letter run of
any match is forced to be the maximal letter run at the front, because the
next pattern character `:` is not a letter. -/
def hasScheme (s : List Char) : Bool :=
  !(s.takeWhile isAsciiLetter).isEmpty &&
    startsWithL [':', '/', '/'] (s.dropWhile isAsciiLetter)

/-- `re.sub(r'^[a-zA-Z]+://', '', s)`: remove the scheme match if any. -/
def subScheme (s : List Char) : List Char :=
  if hasScheme s then (s.dropWhile isAsciiLetter).drop 3 else s

/-- `_strip_scheme` from docker.py: falsy input gives `""`, otherwise
`value.strip()` followed by the anchored scheme substitution. -/
def strip_scheme (value : List Char) : List Char :=
  if value.isEmpty then [] else subScheme (pyStrip value)

/-- Python `str.rstrip('/')`. -/
def rstripSlash (s : List Char) : List Char :=
  (s.reverse.dropWhile (fun c => c == '/')).reverse

/-- `sanitize_registry` from docker.py. -/
def sanitize_registry (registry : List Char) : List Char :=
  rstripSlash (strip_scheme registry)

/-- `re.sub(r'/+', '/', s)`: collapse every run of slashes to one slash. -/
def collapseSlashes : List Char → List Char
  | [] => []
  | [c] => [c]
  | a :: b :: rest =>
    if a = '/' ∧ b = '/' then collapseSlashes (b :: rest)
    else a :: collapseSlashes (b :: rest)

/-- `sanitize_image_reference` from docker.py. -/
def sanitize_image_reference (image_name : List Char) : List Char :=
  let i := strip_scheme image_name
  if i.isEmpty then [] else collapseSlashes i

/-- `build_full_image_name` from docker.py. -/
def build_full_image_name (registry image_name : List Char) : List Char :=
  let image_name := sanitize_image_reference image_name
  let registry := sanitize_registry registry
  if registry = [] then image_name
  else if startsWithL (registry ++ ['/']) image_name then image_name
  else if image_name = [] then registry
  else registry ++ '/' :: image_name

/-- The tag extraction appearing in the pull paths of docker.py:
`rsplit(":", 1)` when a colon is present, otherwise tag `"latest"`. -/
def splitTagPair (s : List Char) : List Char × List Char :=
  let revTag := s.reverse.takeWhile (fun c => !(c == ':'))
  if revTag.length = s.length then (s, "latest".toList)
  else ((s.reverse.drop (revTag.length + 1)).reverse, revTag.reverse)

/-- Outcome of one Docker pull call: `docker_client.images.pull` either
returns (`.ok`) or raises (`.error msg`). -/
abbrev PullFn := List Char → List Char → Except (List Char) Unit

/-- Whether a pull call succeeded (the surrounding `try` catches the error). -/
def pullOutcome (pull : PullFn) (repository tag : List Char) : Bool :=
  match pull repository tag with
  | .ok _ => true
  | .error _ => false

/-- A `droplet` database record, as read by docker.py: both container
columns are nullable. -/
structure Droplet where
  id : Nat
  display_name : List Char
  container_docker_registry : Option (List Char)
  container_docker_image : Option (List Char)
deriving DecidableEq

/-- The version-pinned companion (Guacamole) image name. -/
def guacImageName (version : List Char) : List Char :=
  "ghcr.io/zwpseudo/hostlife-guac:".toList ++ version

/-- One entry of the `required_images` list built in the pull passes. -/
structure PullImage where
  name : List Char
  description : List Char
deriving DecidableEq

/-- One attempted pull: the `(repository, tag)` passed to the client and
whether that call succeeded. -/
structure PullAttempt where
  repository : List Char
  tag : List Char
  ok : Bool
deriving DecidableEq

/-- The droplet loop body of `force_pull_required_images`: skip when the
image column is NULL, build the canonical name, skip when it is empty. -/
def forcePullEntryOfDroplet (d : Droplet) : Option PullImage :=
  match d.container_docker_image with
  | none => none
  | some img =>
    let image := build_full_image_name (d.container_docker_registry.getD []) img
    if image = [] then none
    else some ⟨image, "Droplet: ".toList ++ d.display_name⟩

/-- The `required_images` list of `force_pull_required_images`. -/
def forceRequiredImages (version : List Char) (ds : List Droplet) : List PullImage :=
  ⟨guacImageName version, "Guacamole VNC Server".toList⟩ ::
    ds.filterMap forcePullEntryOfDroplet

/-- The pull loop of `force_pull_required_images`: every entry is attempted;
a raising pull is caught by the per-entry `try`, logged, and the loop
continues with the next entry. -/
def forcePullLoop (pull : PullFn) : List PullImage → List PullAttempt
  | [] => []
  | e :: rest =>
    let rt := splitTagPair e.name
    ⟨rt.1, rt.2, pullOutcome pull rt.1 rt.2⟩ :: forcePullLoop pull rest

/-- `force_pull_required_images`, returning the sequence of attempted pull
calls.  No client means an early return; a raising droplet query is caught
by the outer `try` before any pull happens. -/
def force_pull_required_images (avail : Bool) (version : List Char)
    (droplets : Except (List Char) (List Droplet)) (pull : PullFn) : List PullAttempt :=
  if avail then
    match droplets with
    | .error _ => []
    | .ok ds => forcePullLoop pull (forceRequiredImages version ds)
  else []

/-- The droplet loop body of `pull_images` (verbatim duplicate in the source). -/
def pullImagesEntryOfDroplet (d : Droplet) : Option PullImage :=
  match d.container_docker_image with
  | none => none
  | some img =>
    let image := build_full_image_name (d.container_docker_registry.getD []) img
    if image = [] then none
    else some ⟨image, "Droplet: ".toList ++ d.display_name⟩

/-- The `required_images` list of `pull_images` (verbatim duplicate). -/
def pullImagesRequiredImages (version : List Char) (ds : List Droplet) : List PullImage :=
  ⟨guacImageName version, "Guacamole VNC Server".toList⟩ ::
    ds.filterMap pullImagesEntryOfDroplet

/-- The pull loop of `pull_images` (verbatim duplicate). -/
def pullImagesLoop (pull : PullFn) : List PullImage → List PullAttempt
  | [] => []
  | e :: rest =>
    let rt := splitTagPair e.name
    ⟨rt.1, rt.2, pullOutcome pull rt.1 rt.2⟩ :: pullImagesLoop pull rest

/-- `pull_images`, returning the sequence of attempted pull calls. -/
def pull_images (avail : Bool) (version : List Char)
    (droplets : Except (List Char) (List Droplet)) (pull : PullFn) : List PullAttempt :=
  if avail then
    match droplets with
    | .error _ => []
    | .ok ds => pullImagesLoop pull (pullImagesRequiredImages version ds)
  else []

/-- `pull_single_image` from docker.py: `(success, message)` result. -/
def pull_single_image (avail : Bool) (pull : PullFn)
    (registry image_name : List Char) : Bool × List Char :=
  if avail then
    if image_name.isEmpty || (pyStrip image_name).isEmpty then
      (false, "Image name cannot be empty".toList)
    else
      let full := build_full_image_name registry image_name
      let rt := splitTagPair full
      match pull rt.1 rt.2 with
      | .ok _ => (true, "Successfully pulled ".toList ++ full)
      | .error e =>
        (false, "Error pulling Docker image ".toList ++ image_name ++ ": ".toList ++ e)
  else (false, "Docker client not available".toList)

/-- Key of the status mapping: the fixed `"guac"` key or a droplet id. -/
inductive StatusId where
  | guac : StatusId
  | droplet (i : Nat) : StatusId
deriving DecidableEq

/-- One required entry of `get_images_status`. -/
structure RequiredStatusImage where
  id : StatusId
  name : List Char
  image : List Char
  description : List Char
deriving DecidableEq

/-- One value of the returned status mapping (`exists` is a Lean keyword,
hence the field name `existsFlag`). -/
structure ImageStatus where
  droplet_name : List Char
  image : List Char
  existsFlag : Bool
  description : List Char
deriving DecidableEq

/-- The droplet loop body of `get_images_status`: same skip logic again. -/
def statusEntryOfDroplet (d : Droplet) : Option RequiredStatusImage :=
  match d.container_docker_image with
  | none => none
  | some img =>
    let full := build_full_image_name (d.container_docker_registry.getD []) img
    if full = [] then none
    else some ⟨.droplet d.id, d.display_name, full, "Droplet: ".toList ++ d.display_name⟩

/-- The `required_images` list of `get_images_status`. -/
def requiredStatusImages (version : List Char) (ds : List Droplet) :
    List RequiredStatusImage :=
  ⟨StatusId.guac, "Guacamole".toList, guacImageName version,
    "Guacamole VNC Server".toList⟩ :: ds.filterMap statusEntryOfDroplet

/-- The `local_image_tags` accumulation: start from `[]` and `extend` with
each local image's tag list. -/
def flattenTags (imgs : List (List (List Char))) : List (List Char) :=
  imgs.foldl (fun acc tags => acc ++ tags) []

/-- `any(img_info["image"] == tag for tag in local_image_tags)`. -/
def imageExistsLocally (image : List Char) (tags : List (List Char)) : Bool :=
  tags.any (fun t => image == t)

/-- `get_images_status` from docker.py.  A missing client returns the empty
mapping; a raising droplet query or image listing is caught by the outer
`try` and also yields the empty mapping.  The Python dict is modelled as the
association list in insertion order. -/
def get_images_status (avail : Bool) (version : List Char)
    (droplets : Except (List Char) (List Droplet))
    (localImages : Except (List Char) (List (List (List Char)))) :
    List (StatusId × ImageStatus) :=
  if avail then
    match droplets, localImages with
    | .ok ds, .ok imgs =>
      let required := requiredStatusImages version ds
      let tags := flattenTags imgs
      required.map (fun e =>
        (e.id, ⟨e.name, e.image, imageExistsLocally e.image tags, e.description⟩))
    | _, _ => []
  else []

/-- The literal part of the cleanup regex. -/
def hostlifePre : List Char := "hostlife_generated_".toList

/-- Whether `re.match(r"hostlife_generated_([a-z0-9]+(-[a-z0-9]+)+)",
name, re.IGNORECASE)` succeeds.  `re.match` anchors at the start only, so a
match never has to reach the end of the name.  Because `-` is not in
`[a-z0-9]`, the first `[a-z0-9]+` of any match is forced to the maximal
alphanumeric run after the literal, so the regex is equivalent to: the
maximal run is nonempty, and it is followed by `-` and one more
alphanumeric character. -/
def cleanupMatches (name : List Char) : Bool :=
  let l := name.map lowerChar
  startsWithL hostlifePre l &&
    (let rest := l.drop hostlifePre.length
     !(rest.takeWhile isLowerAlnum).isEmpty &&
       match rest.dropWhile isLowerAlnum with
       | d :: c :: _ => d == '-' && isLowerAlnum c
       | _ => false)

/-- `cleanup_containers` from docker.py, returning the names it attempts to
stop and remove.  No client or a raising container listing yields no
removals. -/
def cleanup_containers (avail : Bool)
    (containers : Except (List Char) (List (List Char))) : List (List Char) :=
  if avail then
    match containers with
    | .error _ => []
    | .ok cs => cs.filter cleanupMatches
  else []

/-- Modelled from the claim text of C6 (spec side, for comparison): the whole
name is `hostlife_generated_<slug>` with `<slug>` one or more hyphen-joined
alphanumeric segments, case-insensitively.  `seen` records whether the
current segment already has a character. -/
def claimSlugAux (seen : Bool) : List Char → Bool
  | [] => seen
  | c :: rest =>
    if c == '-' then seen && claimSlugAux false rest
    else isLowerAlnum c && claimSlugAux true rest

/-- Modelled from the claim text of C6 (spec side): full-name match of
`hostlife_generated_<slug>`. -/
def claimPattern (name : List Char) : Bool :=
  let l := name.map lowerChar
  startsWithL hostlifePre l && claimSlugAux false (l.drop hostlifePre.length)

/-- Modelled from the spec wording of `buildFullImageName` (spec side, for
comparison with the code's `build_full_image_name`): sanitize both inputs
independently; empty registry returns the sanitized image name; an image
name already carrying the registry prefix is returned unchanged; a nonempty
image name is joined; an empty one degenerates to the bare registry. -/
def buildFullImageNameSpec (registry image_name : List Char) : List Char :=
  let r := sanitize_registry registry
  let i := sanitize_image_reference image_name
  if r = [] then i
  else if startsWithL (r ++ ['/']) i then i
  else if i ≠ [] then r ++ '/' :: i
  else r

/-- Predicate used to state C5's amendment: no double-slash run anywhere. -/
def noDoubleSlash : List Char → Bool
  | a :: b :: rest => !(a == '/' && b == '/') && noDoubleSlash (b :: rest)
  | _ => true

/-- The pull attempt a single required entry generates; it depends only on
that entry and the pull behaviour, never on the other entries. -/
def attemptOf (pull : PullFn) (e : PullImage) : PullAttempt :=
  let rt := splitTagPair e.name
  ⟨rt.1, rt.2, pullOutcome pull rt.1 rt.2⟩

/-! ### Helper lemmas -/

theorem startsWithL_iff (p : List Char) : ∀ l : List Char,
    startsWithL p l = true ↔ ∃ t, l = p ++ t := by
  induction p with
  | nil => intro l; simp [startsWithL]
  | cons a p ih =>
    intro l
    cases l with
    | nil => simp [startsWithL]
    | cons b l =>
      simp only [startsWithL, Bool.and_eq_true, beq_iff_eq]
      constructor
      · rintro ⟨rfl, h⟩
        obtain ⟨t, rfl⟩ := (ih l).mp h
        exact ⟨t, rfl⟩
      · rintro ⟨t, ht⟩
        injection ht with h1 h2
        subst h1
        subst h2
        exact ⟨rfl, (ih _).mpr ⟨t, rfl⟩⟩

theorem startsWithL_self_append (p t : List Char) : startsWithL p (p ++ t) = true :=
  (startsWithL_iff p _).mpr ⟨t, rfl⟩

theorem startsWithL_refl (p : List Char) : startsWithL p p = true :=
  (startsWithL_iff p p).mpr ⟨[], (List.append_nil p).symm⟩

theorem startsWithL_append_right {p l : List Char} (t : List Char)
    (h : startsWithL p l = true) : startsWithL p (l ++ t) = true := by
  obtain ⟨u, rfl⟩ := (startsWithL_iff p l).mp h
  rw [List.append_assoc]
  exact startsWithL_self_append p (u ++ t)

theorem isSubstring_nil_pat (l : List Char) : isSubstring [] l = true := by
  induction l with
  | nil => rfl
  | cons a l ih => simp [isSubstring, startsWithL]

theorem isSubstring_of_startsWithL {p l : List Char}
    (h : startsWithL p l = true) : isSubstring p l = true := by
  cases l with
  | nil => simpa [isSubstring] using h
  | cons a rest => simp [isSubstring, h]

theorem isSubstring_cons {p rest : List Char} (a : Char)
    (h : isSubstring p rest = true) : isSubstring p (a :: rest) = true := by
  simp [isSubstring, h]

theorem isSubstring_middle (pre p suf : List Char) :
    isSubstring p (pre ++ (p ++ suf)) = true := by
  induction pre with
  | nil => exact isSubstring_of_startsWithL (startsWithL_self_append p suf)
  | cons a pre ih => exact isSubstring_cons a ih

theorem isSubstring_tail_append (pre p : List Char) :
    isSubstring p (pre ++ p) = true := by
  have h := isSubstring_middle pre p []
  simpa using h

theorem isSubstring_append_right {p l : List Char} (t : List Char)
    (h : isSubstring p l = true) : isSubstring p (l ++ t) = true := by
  induction l with
  | nil =>
    have h' : startsWithL p [] = true := by simpa [isSubstring] using h
    obtain ⟨u, hu⟩ := (startsWithL_iff p []).mp h'
    have hp : p = [] := (List.append_eq_nil.mp hu.symm).1
    subst hp
    exact isSubstring_nil_pat _
  | cons a l ih =>
    have h' : startsWithL p (a :: l) = true ∨ isSubstring p l = true := by
      have := h
      simp only [isSubstring, Bool.or_eq_true] at this
      exact this
    rcases h' with h1 | h2
    · exact isSubstring_of_startsWithL (startsWithL_append_right t h1)
    · exact isSubstring_cons a (ih h2)

theorem dropWhile_eq_self_of_all {p : Char → Bool} {l : List Char}
    (h : ∀ c ∈ l, p c = false) : l.dropWhile p = l := by
  cases l with
  | nil => rfl
  | cons a l =>
    exact List.dropWhile_cons_of_neg (by simp [h a (List.mem_cons_self a l)])

theorem pyStrip_eq_self {l : List Char}
    (h : ∀ c ∈ l, isPySpace c = false) : pyStrip l = l := by
  unfold pyStrip
  rw [dropWhile_eq_self_of_all h, dropWhile_eq_self_of_all, List.reverse_reverse]
  intro c hc
  exact h c (List.mem_reverse.mp hc)

theorem subScheme_eq_self {l : List Char} (h : hasScheme l = false) :
    subScheme l = l := by
  simp [subScheme, h]

theorem isSubstring_scheme_of_hasScheme {l : List Char}
    (h : hasScheme l = true) : isSubstring [':', '/', '/'] l = true := by
  unfold hasScheme at h
  rw [Bool.and_eq_true] at h
  obtain ⟨t, ht⟩ := (startsWithL_iff _ _).mp h.2
  have hl : l = l.takeWhile isAsciiLetter ++ ([':', '/', '/'] ++ t) := by
    conv_lhs => rw [← List.takeWhile_append_dropWhile (p := isAsciiLetter) (l := l)]
    rw [ht]
  rw [hl]
  exact isSubstring_middle _ _ _

theorem hasScheme_false_of_noSub {l : List Char}
    (h : isSubstring [':', '/', '/'] l = false) : hasScheme l = false := by
  cases hs : hasScheme l
  · rfl
  · rw [isSubstring_scheme_of_hasScheme hs] at h
    exact h

theorem noDouble_tail {a : Char} {l : List Char}
    (h : noDoubleSlash (a :: l) = true) : noDoubleSlash l = true := by
  cases l with
  | nil => rfl
  | cons b r =>
    have h' : (!(a == '/' && b == '/') && noDoubleSlash (b :: r)) = true := h
    exact ((Bool.and_eq_true _ _).mp h').2

theorem noDouble_append_right {u v : List Char}
    (h : noDoubleSlash (u ++ v) = true) : noDoubleSlash v = true := by
  induction u with
  | nil => exact h
  | cons a u ih => exact ih (noDouble_tail h)

theorem hasScheme_false_of_noDouble {l : List Char}
    (h : noDoubleSlash l = true) : hasScheme l = false := by
  cases hs : hasScheme l
  · rfl
  · exfalso
    unfold hasScheme at hs
    rw [Bool.and_eq_true] at hs
    obtain ⟨t, ht⟩ := (startsWithL_iff _ _).mp hs.2
    have hl : l = (l.takeWhile isAsciiLetter ++ [':']) ++ ('/' :: '/' :: t) := by
      conv_lhs => rw [← List.takeWhile_append_dropWhile (p := isAsciiLetter) (l := l)]
      rw [ht, List.append_assoc]
      rfl
    have h2 : noDoubleSlash ('/' :: '/' :: t) = true :=
      noDouble_append_right (by rw [← hl]; exact h)
    have h3 : noDoubleSlash ('/' :: '/' :: t) = false := rfl
    rw [h3] at h2
    exact Bool.noConfusion h2

theorem collapseSlashes_cons_head (b : Char) (rest : List Char) :
    ∃ w, collapseSlashes (b :: rest) = b :: w := by
  induction rest generalizing b with
  | nil => exact ⟨[], rfl⟩
  | cons d r ih =>
    by_cases h : b = '/' ∧ d = '/'
    · obtain ⟨w, hw⟩ := ih d
      obtain ⟨hb, hd⟩ := h
      subst hb
      subst hd
      exact ⟨w, by simp [collapseSlashes, hw]⟩
    · exact ⟨collapseSlashes (d :: r), by simp [collapseSlashes, h]⟩

theorem collapseSlashes_noDouble (s : List Char) :
    noDoubleSlash (collapseSlashes s) = true := by
  induction s with
  | nil => rfl
  | cons a s ih =>
    cases s with
    | nil => rfl
    | cons b rest =>
      by_cases h : a = '/' ∧ b = '/'
      · rw [show collapseSlashes (a :: b :: rest) = collapseSlashes (b :: rest) from by
          simp [collapseSlashes, h]]
        exact ih
      · obtain ⟨w, hw⟩ := collapseSlashes_cons_head b rest
        rw [show collapseSlashes (a :: b :: rest) = a :: collapseSlashes (b :: rest) from by
          simp [collapseSlashes, h], hw]
        have h1 : noDoubleSlash (b :: w) = true := hw ▸ ih
        have h2 : (a == '/' && b == '/') = false := by
          cases ha : a == '/'
          · rfl
          · cases hb : b == '/'
            · rfl
            · exact absurd ⟨beq_iff_eq.mp ha, beq_iff_eq.mp hb⟩ h
        show (!(a == '/' && b == '/') && noDoubleSlash (b :: w)) = true
        rw [h2, h1]
        rfl

theorem collapseSlashes_eq_self {s : List Char}
    (h : noDoubleSlash s = true) : collapseSlashes s = s := by
  induction s with
  | nil => rfl
  | cons a s ih =>
    cases s with
    | nil => rfl
    | cons b rest =>
      have hd : noDoubleSlash (b :: rest) = true := noDouble_tail h
      have hab : ¬ (a = '/' ∧ b = '/') := by
        rintro ⟨rfl, rfl⟩
        have hfalse : noDoubleSlash ('/' :: '/' :: rest) = false := rfl
        rw [hfalse] at h
        exact Bool.noConfusion h
      rw [show collapseSlashes (a :: b :: rest) = a :: collapseSlashes (b :: rest) from by
        simp [collapseSlashes, hab], ih hd]

theorem collapseSlashes_sublist (s : List Char) : List.Sublist (collapseSlashes s) s := by
  induction s with
  | nil => exact List.Sublist.refl _
  | cons a s ih =>
    cases s with
    | nil => exact List.Sublist.refl _
    | cons b rest =>
      by_cases h : a = '/' ∧ b = '/'
      · rw [show collapseSlashes (a :: b :: rest) = collapseSlashes (b :: rest) from by
          simp [collapseSlashes, h]]
        exact List.Sublist.cons a ih
      · rw [show collapseSlashes (a :: b :: rest) = a :: collapseSlashes (b :: rest) from by
          simp [collapseSlashes, h]]
        exact List.Sublist.cons₂ a ih

theorem rstripSlash_decomp (x : List Char) :
    x = rstripSlash x ++ (x.reverse.takeWhile (fun c => c == '/')).reverse := by
  unfold rstripSlash
  conv_lhs => rw [← List.reverse_reverse x]
  rw [← List.reverse_append, List.takeWhile_append_dropWhile]

theorem rstripSlash_idem (x : List Char) :
    rstripSlash (rstripSlash x) = rstripSlash x := by
  unfold rstripSlash
  rw [List.reverse_reverse, List.dropWhile_idempotent]

/-! ### Claim theorems -/

/-- C5, counterexample: neither sanitizer is idempotent on all strings.
`sanitize_registry "a /"` is `"a "` (the `rstrip('/')` exposes a trailing
space that only the second pass strips), and
`sanitize_image_reference "http:// a"` is `" a"` (the scheme removal exposes
a leading space that only the second pass strips). -/
theorem sanitize_not_idempotent :
    sanitize_registry (sanitize_registry " a /".toList) ≠
        sanitize_registry " a /".toList ∧
      sanitize_image_reference (sanitize_image_reference "http:// a".toList) ≠
        sanitize_image_reference "http:// a".toList := by
  decide

/-- C5 (amended): `sanitize_registry` and `sanitize_image_reference` are
idempotent on every input that contains no whitespace character and no
occurrence of the substring `"://"`.  (On other inputs idempotence can fail,
as the counterexample shows: stripping the scheme or the trailing slashes
can expose whitespace that only a second pass would trim.) -/
theorem sanitize_idempotent_on_clean_inputs (x : List Char)
    (hsp : ∀ c ∈ x, isPySpace c = false)
    (hsub : isSubstring [':', '/', '/'] x = false) :
    sanitize_registry (sanitize_registry x) = sanitize_registry x ∧
      sanitize_image_reference (sanitize_image_reference x) =
        sanitize_image_reference x := by
  have hscheme : hasScheme x = false := hasScheme_false_of_noSub hsub
  by_cases hx : x = []
  · subst hx
    exact ⟨rfl, rfl⟩
  · have hne : x.isEmpty = false := by
      cases x with
      | nil => exact absurd rfl hx
      | cons a l => rfl
    have hstrip : strip_scheme x = x := by
      simp only [strip_scheme, hne, Bool.false_eq_true, if_false]
      rw [pyStrip_eq_self hsp, subScheme_eq_self hscheme]
    constructor
    · have hsr : sanitize_registry x = rstripSlash x := by
        unfold sanitize_registry
        rw [hstrip]
      rw [hsr]
      have hdecomp := rstripSlash_decomp x
      have hspy : ∀ c ∈ rstripSlash x, isPySpace c = false := fun c hc =>
        hsp c (by rw [hdecomp]; exact List.mem_append_left _ hc)
      have hsuby : isSubstring [':', '/', '/'] (rstripSlash x) = false := by
        cases hs : isSubstring [':', '/', '/'] (rstripSlash x)
        · rfl
        · have hx2 := isSubstring_append_right
            (x.reverse.takeWhile (fun c => c == '/')).reverse hs
          rw [← hdecomp] at hx2
          rw [hx2] at hsub
          exact hsub
      by_cases hy0 : rstripSlash x = []
      · rw [hy0]
        rfl
      · have hscy : hasScheme (rstripSlash x) = false := hasScheme_false_of_noSub hsuby
        have hney : (rstripSlash x).isEmpty = false := by
          cases hcase : rstripSlash x with
          | nil => exact absurd hcase hy0
          | cons a l => rfl
        have hstripy : strip_scheme (rstripSlash x) = rstripSlash x := by
          simp only [strip_scheme, hney, Bool.false_eq_true, if_false]
          rw [pyStrip_eq_self hspy, subScheme_eq_self hscy]
        unfold sanitize_registry
        rw [hstripy, rstripSlash_idem]
    · have hsi : sanitize_image_reference x = collapseSlashes x := by
        simp only [sanitize_image_reference, hstrip, hne, Bool.false_eq_true, if_false]
      rw [hsi]
      have hspz : ∀ c ∈ collapseSlashes x, isPySpace c = false := fun c hc =>
        hsp c ((collapseSlashes_sublist x).subset hc)
      have hnd : noDoubleSlash (collapseSlashes x) = true := collapseSlashes_noDouble x
      have hscz : hasScheme (collapseSlashes x) = false := hasScheme_false_of_noDouble hnd
      by_cases hz0 : collapseSlashes x = []
      · rw [hz0]
        rfl
      · have hnez : (collapseSlashes x).isEmpty = false := by
          cases hcase : collapseSlashes x with
          | nil => exact absurd hcase hz0
          | cons a l => rfl
        have hstripz : strip_scheme (collapseSlashes x) = collapseSlashes x := by
          simp only [strip_scheme, hnez, Bool.false_eq_true, if_false]
          rw [pyStrip_eq_self hspz, subScheme_eq_self hscz]
        simp only [sanitize_image_reference, hstripz, hnez, Bool.false_eq_true, if_false]
        exact collapseSlashes_eq_self hnd

/-- C5, witness: the amended idempotence at the concrete clean input
`"reg.io/a"`. -/
theorem sanitize_idempotent_on_clean_inputs_witness :
    sanitize_registry (sanitize_registry "reg.io/a".toList) =
        sanitize_registry "reg.io/a".toList ∧
      sanitize_image_reference (sanitize_image_reference "reg.io/a".toList) =
        sanitize_image_reference "reg.io/a".toList :=
  sanitize_idempotent_on_clean_inputs "reg.io/a".toList (by decide) (by decide)

/-- C9, counterexample: `" a"` has no scheme (the second conjunct), yet
`strip_scheme " a"` is `"a"`, not the identity — the function also trims
whitespace, so it is not a no-op on every input without a scheme. -/
theorem strip_scheme_not_identity_on_whitespace :
    strip_scheme " a".toList ≠ " a".toList ∧ hasScheme " a".toList = false := by
  decide

/-- C9 (amended): `strip_scheme` maps the empty string to the empty string;
it is the identity on every input that is already whitespace-trimmed
(`pyStrip x = x`) and has no scheme; and on a whitespace-trimmed input of
the form `letters ++ "://" ++ rest` (letters nonempty) it returns `rest`. -/
theorem strip_scheme_behavior (x letters rest : List Char) :
    strip_scheme [] = [] ∧
      (pyStrip x = x → hasScheme x = false → strip_scheme x = x) ∧
      (letters ≠ [] → letters.all isAsciiLetter = true →
        x = letters ++ ':' :: '/' :: '/' :: rest → pyStrip x = x →
        strip_scheme x = rest) := by
  refine ⟨rfl, ?_, ?_⟩
  · intro hstrip hscheme
    by_cases hx : x = []
    · subst hx
      rfl
    · have hne : x.isEmpty = false := by
        cases x with
        | nil => exact absurd rfl hx
        | cons a l => rfl
      simp only [strip_scheme, hne, Bool.false_eq_true, if_false]
      rw [hstrip]
      exact subScheme_eq_self hscheme
  · intro hlet hall hx hstrip
    subst hx
    have hne : (letters ++ ':' :: '/' :: '/' :: rest).isEmpty = false := by
      cases letters with
      | nil => rfl
      | cons a l => rfl
    have hpos : ∀ a ∈ letters, isAsciiLetter a := by
      intro a ha
      exact List.all_eq_true.mp hall a ha
    have htw : (letters ++ ':' :: '/' :: '/' :: rest).takeWhile isAsciiLetter = letters := by
      rw [List.takeWhile_append_of_pos hpos, List.takeWhile_cons_of_neg (by decide),
        List.append_nil]
    have hdw : (letters ++ ':' :: '/' :: '/' :: rest).dropWhile isAsciiLetter =
        ':' :: '/' :: '/' :: rest := by
      rw [List.dropWhile_append_of_pos hpos, List.dropWhile_cons_of_neg (by decide)]
    have hsch : hasScheme (letters ++ ':' :: '/' :: '/' :: rest) = true := by
      unfold hasScheme
      rw [htw, hdw]
      cases letters with
      | nil => exact absurd rfl hlet
      | cons a l => simp [startsWithL]
    simp only [strip_scheme, hne, Bool.false_eq_true, if_false]
    rw [hstrip]
    simp [subScheme, hsch, hdw]

/-- C9, witness: the amended behaviour at `"a/b"` (identity) and at
`"http://a"` (scheme removal). -/
theorem strip_scheme_behavior_witness :
    strip_scheme "a/b".toList = "a/b".toList ∧
      strip_scheme "http://a".toList = "a".toList := by
  constructor
  · exact (strip_scheme_behavior "a/b".toList [] []).2.1 (by decide) (by decide)
  · exact (strip_scheme_behavior "http://a".toList "http".toList "a".toList).2.2
      (by decide) (by decide) (by decide) (by decide)

/-- C3: `build_full_image_name` agrees with the spec description
(`buildFullImageNameSpec`, written from the spec's words) on all inputs, and
satisfies the two concrete examples of the claim. -/
theorem build_full_image_name_spec_correct :
    (∀ registry image_name : List Char,
        build_full_image_name registry image_name =
          buildFullImageNameSpec registry image_name) ∧
      build_full_image_name [] [] = [] ∧
      build_full_image_name "reg.io/".toList "a//b".toList = "reg.io/a/b".toList := by
  refine ⟨?_, by decide, by decide⟩
  intro r i
  simp only [build_full_image_name, buildFullImageNameSpec, ne_eq]
  split_ifs <;> rfl

/-- C1, counterexample: a droplet whose image field is set but EMPTY, with a
nonempty registry, is NOT skipped — all three resolver passes produce an
entry whose image is the bare registry string, contradicting the claim's
"regardless of the record's registry field". -/
theorem empty_image_nonempty_registry_entry :
    statusEntryOfDroplet ⟨1, "d".toList, some "reg.io".toList, some []⟩ =
        some ⟨StatusId.droplet 1, "d".toList, "reg.io".toList, "Droplet: d".toList⟩ ∧
      forcePullEntryOfDroplet ⟨1, "d".toList, some "reg.io".toList, some []⟩ =
        some ⟨"reg.io".toList, "Droplet: d".toList⟩ ∧
      pullImagesEntryOfDroplet ⟨1, "d".toList, some "reg.io".toList, some []⟩ =
        some ⟨"reg.io".toList, "Droplet: d".toList⟩ := by
  decide

/-- C1 (amended): in all three required-image passes a droplet record is
skipped iff its image field is NULL or the canonical full image name built
from its registry and image fields is empty.  An unset image is always
skipped; an empty image is skipped only when the sanitized registry is also
empty — with a nonempty registry the record yields an entry (whose image is
the bare registry). -/
theorem resolver_skip_characterization (d : Droplet) (img : List Char) :
    (d.container_docker_image = none →
        statusEntryOfDroplet d = none ∧ forcePullEntryOfDroplet d = none ∧
          pullImagesEntryOfDroplet d = none) ∧
      (d.container_docker_image = some img →
        build_full_image_name (d.container_docker_registry.getD []) img = [] →
        statusEntryOfDroplet d = none ∧ forcePullEntryOfDroplet d = none ∧
          pullImagesEntryOfDroplet d = none) ∧
      (d.container_docker_image = some img →
        build_full_image_name (d.container_docker_registry.getD []) img ≠ [] →
        statusEntryOfDroplet d ≠ none ∧ forcePullEntryOfDroplet d ≠ none ∧
          pullImagesEntryOfDroplet d ≠ none) := by
  refine ⟨?_, ?_, ?_⟩
  · intro h
    refine ⟨?_, ?_, ?_⟩ <;>
      simp [statusEntryOfDroplet, forcePullEntryOfDroplet, pullImagesEntryOfDroplet, h]
  · intro h hb
    refine ⟨?_, ?_, ?_⟩ <;>
      simp [statusEntryOfDroplet, forcePullEntryOfDroplet, pullImagesEntryOfDroplet, h, hb]
  · intro h hb
    refine ⟨?_, ?_, ?_⟩ <;>
      simp [statusEntryOfDroplet, forcePullEntryOfDroplet, pullImagesEntryOfDroplet, h, hb]

/-- C1, witness: the three skip/keep cases at concrete droplets. -/
theorem resolver_skip_characterization_witness :
    statusEntryOfDroplet ⟨1, "d".toList, none, none⟩ = none ∧
      statusEntryOfDroplet ⟨2, "d".toList, none, some []⟩ = none ∧
      statusEntryOfDroplet ⟨3, "d".toList, none, some "img".toList⟩ ≠ none :=
  ⟨((resolver_skip_characterization ⟨1, "d".toList, none, none⟩ []).1 rfl).1,
   ((resolver_skip_characterization ⟨2, "d".toList, none, some []⟩ []).2.1 rfl
      (by decide)).1,
   ((resolver_skip_characterization ⟨3, "d".toList, none, some "img".toList⟩
      "img".toList).2.2 rfl (by decide)).1⟩

/-- C2: every entry of the status mapping has `existsFlag = true` exactly
when its canonical image string is equal (string equality) to some tag in
the flattened local tag collection; an entry that is only a strict prefix of
every local tag it starts (in particular never equal to one) gets
`existsFlag = false`. -/
theorem images_status_exact_match (version : List Char) (ds : List Droplet)
    (imgs : List (List (List Char))) (key : StatusId) (st : ImageStatus)
    (hmem : (key, st) ∈ get_images_status true version (Except.ok ds) (Except.ok imgs)) :
    (st.existsFlag = true ↔ st.image ∈ flattenTags imgs) ∧
      ((∀ t ∈ flattenTags imgs, startsWithL st.image t = true →
          st.image.length < t.length) →
        st.existsFlag = false) := by
  have hiff : st.existsFlag = true ↔ st.image ∈ flattenTags imgs := by
    simp only [get_images_status, if_true, List.mem_map] at hmem
    obtain ⟨e, he, heq⟩ := hmem
    have h2 : (⟨e.name, e.image, imageExistsLocally e.image (flattenTags imgs),
        e.description⟩ : ImageStatus) = st := congrArg Prod.snd heq
    subst h2
    show imageExistsLocally e.image (flattenTags imgs) = true ↔ _
    unfold imageExistsLocally
    rw [List.any_eq_true]
    constructor
    · rintro ⟨t, ht, hbeq⟩
      rw [beq_iff_eq] at hbeq
      rw [hbeq]
      exact ht
    · intro hmem2
      exact ⟨e.image, hmem2, beq_self_eq_true e.image⟩
  refine ⟨hiff, ?_⟩
  intro hpre
  cases hflag : st.existsFlag
  · rfl
  · exfalso
    have hm := hiff.mp hflag
    have hlt := hpre st.image hm (startsWithL_refl st.image)
    exact lt_irrefl _ hlt

/-- C2, witness: at the spec's example a required entry that is a strict
prefix (`...img:1`) of the only local tag (`...img:1.0`) is reported as not
existing. -/
theorem images_status_exact_match_witness :
    (ImageStatus.mk "x".toList "ghcr.io/x/img:1".toList false
        "Droplet: x".toList).existsFlag = false :=
  (images_status_exact_match "1".toList
      [⟨1, "x".toList, none, some "ghcr.io/x/img:1".toList⟩]
      [["ghcr.io/x/img:1.0".toList]] (StatusId.droplet 1)
      ⟨"x".toList, "ghcr.io/x/img:1".toList, false, "Droplet: x".toList⟩
      (by decide)).2 (by decide)

/-- C8: `get_images_status` returns the empty mapping when the client is
unavailable, and likewise when the droplet query or the local image listing
raises; no partial mapping ever escapes the error paths. -/
theorem images_status_safe_default (version : List Char)
    (droplets : Except (List Char) (List Droplet))
    (localImages : Except (List Char) (List (List (List Char)))) :
    get_images_status false version droplets localImages = [] ∧
      (∀ e, droplets = Except.error e →
        get_images_status true version droplets localImages = []) ∧
      (∀ e, localImages = Except.error e →
        get_images_status true version droplets localImages = []) := by
  refine ⟨rfl, ?_, ?_⟩
  · rintro e rfl
    rfl
  · rintro e rfl
    cases droplets with
    | error e' => rfl
    | ok ds => rfl

/-- C8, witness: the three empty-mapping cases at concrete arguments. -/
theorem images_status_safe_default_witness :
    get_images_status false [] (Except.ok []) (Except.ok []) = [] ∧
      get_images_status true [] (Except.error []) (Except.ok []) = [] ∧
      get_images_status true [] (Except.ok []) (Except.error []) = [] :=
  ⟨(images_status_safe_default [] (Except.ok []) (Except.ok [])).1,
   (images_status_safe_default [] (Except.error []) (Except.ok [])).2.1 [] rfl,
   (images_status_safe_default [] (Except.ok []) (Except.error [])).2.2 [] rfl⟩

/-- C7: both bulk pull loops are equal to a `map` of a per-entry attempt
function, so every required entry is attempted in entry order, the attempt
made for an entry depends only on that entry and the pull behaviour, and a
raising pull on one entry never suppresses the attempts for the later
entries (the right-hand side does not depend on any other entry's
outcome). -/
theorem pull_loop_attempts_all_entries (pull : PullFn) (entries : List PullImage) :
    forcePullLoop pull entries = entries.map (attemptOf pull) ∧
      pullImagesLoop pull entries = entries.map (attemptOf pull) := by
  refine ⟨?_, ?_⟩
  · induction entries with
    | nil => rfl
    | cons e rest ih => simp [forcePullLoop, attemptOf, ih]
  · induction entries with
    | nil => rfl
    | cons e rest ih => simp [pullImagesLoop, attemptOf, ih]

/-- C10: the two bulk-pull entry points are behaviourally equivalent — for
every availability, version, droplet-query outcome, and pull behaviour they
issue the same sequence of pull attempts; their required-image lists are
equal; and the fixed companion (Guacamole) entry is always first. -/
theorem force_pull_equiv_pull_images (avail : Bool) (version : List Char)
    (droplets : Except (List Char) (List Droplet)) (pull : PullFn)
    (ds : List Droplet) :
    force_pull_required_images avail version droplets pull =
        pull_images avail version droplets pull ∧
      forceRequiredImages version ds = pullImagesRequiredImages version ds ∧
      (forceRequiredImages version ds).head? =
        some ⟨guacImageName version, "Guacamole VNC Server".toList⟩ := by
  have hentry : ∀ d, forcePullEntryOfDroplet d = pullImagesEntryOfDroplet d :=
    fun d => rfl
  have hreq : ∀ ds' : List Droplet,
      forceRequiredImages version ds' = pullImagesRequiredImages version ds' := by
    intro ds'
    unfold forceRequiredImages pullImagesRequiredImages
    rw [List.filterMap_congr (fun d _ => hentry d)]
  have hloop : ∀ l, forcePullLoop pull l = pullImagesLoop pull l := by
    intro l
    induction l with
    | nil => rfl
    | cons e rest ih => simp [forcePullLoop, pullImagesLoop, ih]
  refine ⟨?_, hreq ds, rfl⟩
  unfold force_pull_required_images pull_images
  cases avail with
  | false => rfl
  | true =>
    cases droplets with
    | error e => rfl
    | ok ds' =>
      show forcePullLoop pull (forceRequiredImages version ds') =
        pullImagesLoop pull (pullImagesRequiredImages version ds')
      rw [hreq ds', hloop]

/-- C4, counterexample: when the pull raises, the failure message echoes the
RAW image-name argument (`"a"`), not the canonical reference
(`build_full_image_name "r" "a" = "r/a"`), so the claim that the message
echoes the canonical reference in the failure case is false. -/
theorem pull_single_image_error_message_not_canonical :
    (pull_single_image true (fun _ _ => Except.error "boom".toList)
        "r".toList "a".toList).1 = false ∧
      isSubstring (build_full_image_name "r".toList "a".toList)
        (pull_single_image true (fun _ _ => Except.error "boom".toList)
          "r".toList "a".toList).2 = false := by
  decide

/-- C4 (amended): `pull_single_image` always returns a `(success, message)`
pair (it is total by construction); the unavailable-client failure returns
the fixed message `"Docker client not available"`; an empty or
whitespace-only image name returns the fixed message
`"Image name cannot be empty"` without reaching the runtime; on success the
message echoes the canonical image reference; on a pull failure the message
echoes the raw image-name argument instead. -/
theorem pull_single_image_result_spec (pull : PullFn)
    (registry image_name : List Char) :
    pull_single_image false pull registry image_name =
        (false, "Docker client not available".toList) ∧
      ((image_name.isEmpty || (pyStrip image_name).isEmpty) = true →
        pull_single_image true pull registry image_name =
          (false, "Image name cannot be empty".toList)) ∧
      ((image_name.isEmpty || (pyStrip image_name).isEmpty) = false →
        (pull (splitTagPair (build_full_image_name registry image_name)).1
            (splitTagPair (build_full_image_name registry image_name)).2 =
              Except.ok () →
          pull_single_image true pull registry image_name =
              (true, "Successfully pulled ".toList ++
                build_full_image_name registry image_name) ∧
            isSubstring (build_full_image_name registry image_name)
              (pull_single_image true pull registry image_name).2 = true) ∧
        (∀ e, pull (splitTagPair (build_full_image_name registry image_name)).1
            (splitTagPair (build_full_image_name registry image_name)).2 =
              Except.error e →
          pull_single_image true pull registry image_name =
              (false, "Error pulling Docker image ".toList ++ image_name ++
                ": ".toList ++ e) ∧
            isSubstring image_name
              (pull_single_image true pull registry image_name).2 = true)) := by
  refine ⟨rfl, ?_, ?_⟩
  · intro hemp
    simp [pull_single_image, hemp]
  · intro hne
    refine ⟨?_, ?_⟩
    · intro h
      have heq : pull_single_image true pull registry image_name =
          (true, "Successfully pulled ".toList ++
            build_full_image_name registry image_name) := by
        simp [pull_single_image, hne, h]
      exact ⟨heq, by rw [heq]; exact isSubstring_tail_append _ _⟩
    · intro e he
      have heq : pull_single_image true pull registry image_name =
          (false, "Error pulling Docker image ".toList ++ image_name ++
            ": ".toList ++ e) := by
        simp [pull_single_image, hne, he]
      refine ⟨heq, ?_⟩
      rw [heq]
      have hmid := isSubstring_middle "Error pulling Docker image ".toList
        image_name (": ".toList ++ e)
      simpa [List.append_assoc] using hmid

/-- C4, witness: the amended result shape at concrete inputs for all four
branches — unavailable client, whitespace-only image name, succeeding pull,
and failing pull. -/
theorem pull_single_image_result_spec_witness :
    pull_single_image false (fun _ _ => Except.ok ()) "r".toList "a".toList =
        (false, "Docker client not available".toList) ∧
      pull_single_image true (fun _ _ => Except.ok ()) "r".toList " ".toList =
        (false, "Image name cannot be empty".toList) ∧
      pull_single_image true (fun _ _ => Except.ok ()) "r".toList "a".toList =
        (true, "Successfully pulled ".toList ++
          build_full_image_name "r".toList "a".toList) ∧
      pull_single_image true (fun _ _ => Except.error "x".toList)
          "r".toList "b".toList =
        (false, "Error pulling Docker image ".toList ++ "b".toList ++
          ": ".toList ++ "x".toList) :=
  ⟨(pull_single_image_result_spec (fun _ _ => Except.ok ()) "r".toList
      "a".toList).1,
   (pull_single_image_result_spec (fun _ _ => Except.ok ()) "r".toList
      " ".toList).2.1 (by decide),
   (((pull_single_image_result_spec (fun _ _ => Except.ok ()) "r".toList
      "a".toList).2.2 (by decide)).1 rfl).1,
   (((pull_single_image_result_spec (fun _ _ => Except.error "x".toList)
      "r".toList "b".toList).2.2 (by decide)).2 "x".toList rfl).1⟩

theorem cleanupMatches_iff (name : List Char) :
    cleanupMatches name = true ↔
      ∃ seg c rest, name.map lowerChar = hostlifePre ++ (seg ++ '-' :: c :: rest) ∧
        seg ≠ [] ∧ (∀ a ∈ seg, isLowerAlnum a = true) ∧ isLowerAlnum c = true := by
  unfold cleanupMatches
  constructor
  · intro h
    rw [Bool.and_eq_true] at h
    obtain ⟨h1, h2⟩ := h
    obtain ⟨r, hr⟩ := (startsWithL_iff hostlifePre (name.map lowerChar)).mp h1
    rw [hr] at h2
    simp only [List.drop_left] at h2
    rw [Bool.and_eq_true] at h2
    obtain ⟨hne, hmatch⟩ := h2
    rcases hdrop : r.dropWhile isLowerAlnum with _ | ⟨d, _ | ⟨c, rest'⟩⟩
    · rw [hdrop] at hmatch
      simp at hmatch
    · rw [hdrop] at hmatch
      simp at hmatch
    · rw [hdrop] at hmatch
      have hmatch' : (d == '-' && isLowerAlnum c) = true := hmatch
      rw [Bool.and_eq_true, beq_iff_eq] at hmatch'
      obtain ⟨rfl, hc⟩ := hmatch'
      refine ⟨r.takeWhile isLowerAlnum, c, rest', ?_, ?_, ?_, hc⟩
      · rw [hr]
        congr 1
        conv_lhs => rw [← List.takeWhile_append_dropWhile (p := isLowerAlnum) (l := r)]
        rw [hdrop]
      · intro heq
        rw [heq] at hne
        simp at hne
      · intro a ha
        exact List.mem_takeWhile_imp ha
  · rintro ⟨seg, c, rest, hdecomp, hne, hall, hc⟩
    rw [Bool.and_eq_true, hdecomp]
    constructor
    · exact startsWithL_self_append _ _
    · simp only [List.drop_left]
      have hpos : ∀ a ∈ seg, isLowerAlnum a := fun a ha => hall a ha
      rw [List.takeWhile_append_of_pos hpos, List.dropWhile_append_of_pos hpos,
        List.takeWhile_cons_of_neg (by decide), List.dropWhile_cons_of_neg (by decide)]
      simp [hne, hc]

/-- C6, counterexample: `"hostlife_generated_abc"` matches the pattern of
the claim (`claimPattern`, built from the claim's words: ONE or more
hyphen-joined alphanumeric segments), yet the cleaner does not select it —
the code's regex `[a-z0-9]+(-[a-z0-9]+)+` demands at least two segments. -/
theorem cleanup_single_segment_not_selected :
    claimPattern "hostlife_generated_abc".toList = true ∧
      cleanup_containers true
        (Except.ok ["hostlife_generated_abc".toList]) = [] := by
  decide

/-- C6 (amended): the cleaner selects a container iff its name, lowercased,
begins with `hostlife_generated_` followed by a nonempty alphanumeric
segment, a hyphen, and at least one more alphanumeric character — i.e. the
slug needs at least TWO hyphen-joined segments, the match is anchored at the
start only (arbitrary trailing characters are allowed), and matching is
case-insensitive. -/
theorem cleanup_selection_characterization (name : List Char)
    (cs : List (List Char)) :
    name ∈ cleanup_containers true (Except.ok cs) ↔
      name ∈ cs ∧
        ∃ seg c rest,
          name.map lowerChar = hostlifePre ++ (seg ++ '-' :: c :: rest) ∧
            seg ≠ [] ∧ (∀ a ∈ seg, isLowerAlnum a = true) ∧
            isLowerAlnum c = true := by
  have hshow : cleanup_containers true (Except.ok cs) = cs.filter cleanupMatches := rfl
  rw [hshow, List.mem_filter]
  exact and_congr_right fun _ => cleanupMatches_iff name

/-- C6, witness: `"hostlife_generated_a-b"` (two segments) is selected. -/
theorem cleanup_selection_characterization_witness :
    "hostlife_generated_a-b".toList ∈
      cleanup_containers true (Except.ok ["hostlife_generated_a-b".toList]) :=
  (cleanup_selection_characterization "hostlife_generated_a-b".toList
      ["hostlife_generated_a-b".toList]).mpr
    ⟨by decide, ['a'], 'b', [], by decide, by decide, by decide, by decide⟩
